import Mathlib

/-
Verification of the text-processing core of the word-automator backend
(src/main.py). Python strings are modelled as Lean strings (lists of
characters); the four transformer functions, the seed template registry and
the dispatch handler of POST /process are translated directly from the
source. Unicode-aware behaviour of Python (str.split, str.strip,
str.capitalize, str.upper, str.lower) is modelled on the ASCII range, which
covers every literal appearing in the source and in the claims. Fields of
the analyzer output that carry Python floats (average word length, average
sentence length, reading time) are outside the shallow embedding and are
omitted; no claim mentions them.
-/

set_option maxRecDepth 20000

/-- Opening curly brace character. -/
def lbrace : Char := '\x7b'

/-- Closing curly brace character. -/
def rbrace : Char := '\x7d'

/-- Whitespace predicate of Python str.split / str.strip (ASCII range). -/
def pyIsSpace (c : Char) : Bool :=
  c = ' ' || c = '\t' || c = '\n' || c = '\r' || c = '\x0b' || c = '\x0c'

/-- Accumulator worker for no-argument str.split: split on whitespace runs,
dropping empty tokens. The accumulator holds the current word reversed. -/
def wordsAux : List Char → List Char → List (List Char)
  | [], acc => if acc = [] then [] else [acc.reverse]
  | c :: cs, acc =>
    if pyIsSpace c then
      if acc = [] then wordsAux cs [] else acc.reverse :: wordsAux cs []
    else
      wordsAux cs (c :: acc)

/-- Python text.split() with no argument: whitespace-delimited tokens. -/
def pyWordsL (l : List Char) : List (List Char) := wordsAux l []

/-- Python text.split(".") on the period character, keeping empty pieces. -/
def splitDot : List Char → List (List Char)
  | [] => [[]]
  | c :: cs =>
    if c = '.' then
      [] :: splitDot cs
    else
      match splitDot cs with
      | [] => [[c]]
      | w :: rest => (c :: w) :: rest

/-- Python text.strip(): remove leading and trailing whitespace. -/
def pyStripL (l : List Char) : List Char :=
  ((l.dropWhile pyIsSpace).reverse.dropWhile pyIsSpace).reverse

/-- Python sep.join(pieces). -/
def pyJoin (sep : List Char) : List (List Char) → List Char
  | [] => []
  | [w] => w
  | w :: x :: ws => w ++ sep ++ pyJoin sep (x :: ws)

/-- Python text.capitalize(): first character uppercased, the rest
lowercased (ASCII model). -/
def pyCapitalizeL : List Char → List Char
  | [] => []
  | c :: cs => c.toUpper :: cs.map Char.toLower

/-- Python text.endswith("."). -/
def endsDot (l : List Char) : Bool :=
  match l.getLast? with
  | some c => c = '.'
  | none => false

/-- Boolean test that the first list starts the second one. -/
def leads : List Char → List Char → Bool
  | [], _ => true
  | _ :: _, [] => false
  | a :: ps, b :: bs => if a = b then leads ps bs else false

/-- Python text.replace(pat, new) for a nonempty pattern p0 :: pr: scan left
to right, replace each non-overlapping occurrence, never rescanning the
inserted replacement. Every call site in the source uses a nonempty
pattern. -/
def pyReplace (p0 : Char) (pr : List Char) (new : List Char) : List Char → List Char
  | [] => []
  | c :: cs =>
    if leads (p0 :: pr) (c :: cs) = true then
      new ++ pyReplace p0 pr new ((c :: cs).drop (pr.length + 1))
    else
      c :: pyReplace p0 pr new cs
termination_by s => s.length
decreasing_by
  · simp only [List.length_drop, List.length_cons]
    omega
  · simp only [List.length_cons]
    omega

/-- Python dict.get(key) on a string-to-string mapping, first match wins. -/
def pyGet : List (String × String) → String → Option String
  | [], _ => none
  | (k, v) :: rest, key => if k = key then some v else pyGet rest key

/-- Python dict.get(key, default). -/
def pyGetD (m : List (String × String)) (k d : String) : String :=
  match pyGet m k with
  | some v => v
  | none => d

/-- A record of the TEMPLATES registry of src/main.py. -/
structure Template where
  name : String
  content : String
  vars : List String
deriving DecidableEq

/-- Seed template business_report from src/main.py. -/
def businessReportT : Template :=
  { name := "Business Report"
    content := "# {title}\n\n## Executive Summary\n{summary}\n\n## Key Findings\n{findings}\n\n## Recommendations\n{recommendations}\n\n## Next Steps\n{next_steps}\n\n**Date:** {date}\n**Prepared by:** {author}"
    vars := ["title", "summary", "findings", "recommendations", "next_steps", "date", "author"] }

/-- Seed template email_template from src/main.py. -/
def emailT : Template :=
  { name := "Professional Email"
    content := "Subject: {subject}\n\nDear {recipient_name},\n\n{email_body}\n\nBest regards,\n{sender_name}\n{position}\n{company}"
    vars := ["subject", "recipient_name", "email_body", "sender_name", "position", "company"] }

/-- Seed template meeting_minutes from src/main.py. -/
def meetingT : Template :=
  { name := "Meeting Minutes"
    content := "# Meeting Minutes: {meeting_title}\n\n**Date:** {date}\n**Time:** {time}\n**Location:** {location}\n**Attendees:** {attendees}\n\n## Agenda\n{agenda}\n\n## Discussion Points\n{discussion}\n\n## Action Items\n{action_items}\n\n## Next Meeting\n{next_meeting}"
    vars := ["meeting_title", "date", "time", "location", "attendees", "agenda", "discussion", "action_items", "next_meeting"] }

/-- The TEMPLATES registry of src/main.py, in declaration order. -/
def TEMPLATES : List (String × Template) :=
  [("business_report", businessReportT), ("email_template", emailT), ("meeting_minutes", meetingT)]

/-- Python dict.get on the registry. -/
def findT : List (String × Template) → String → Option Template
  | [], _ => none
  | (k, t) :: rest, key => if k = key then some t else findT rest key

/-- TEMPLATES.get(name). -/
def lookupTemplate (key : String) : Option Template := findT TEMPLATES key

/-- Python falsy-or: template_name or "business_report" (None and the empty
string both fall back to the default id). -/
def resolveName : Option String → String
  | none => "business_report"
  | some s => if s = "" then "business_report" else s

/-- One iteration of the replacement loop of autofill_template: replace
every occurrence of the brace-wrapped variable with its resolved value,
defaulting to the bracketed placeholder. -/
def fillStep (m : List (String × String)) (acc : List Char) (v : String) : List Char :=
  pyReplace lbrace (v.data ++ [rbrace]) (pyGetD m v ("[" ++ v.toUpper ++ "_HERE]")).data acc

/-- The replacement loop of autofill_template over a resolved template. -/
def fillTemplate (t : Template) (m : List (String × String)) : String :=
  ⟨t.vars.foldl (fillStep m) t.content.data⟩

/-- autofill_template from src/main.py (the context argument is unused by
the source and omitted). -/
def autofill_template (template_name : Option String) (m : List (String × String)) : String :=
  match lookupTemplate (resolveName template_name) with
  | none => "Template not found"
  | some t => fillTemplate t m

/-- Body of autocorrect_text from src/main.py, on character lists. In the
source the input is rebound to its stripped form before the style branches,
so the casual branch also works on the stripped text. -/
def autocorrectL (l : List Char) (style : String) : List Char :=
  if l = [] then l
  else
    let stripped := pyStripL l
    let sentences := ((splitDot stripped).filter (fun s => !(pyStripL s).isEmpty)).map pyStripL
    let corrected :=
      if style = "formal" then
        let j := pyJoin ('.' :: ' ' :: []) (sentences.map pyCapitalizeL)
        if endsDot j then j else j ++ ['.']
      else if style = "casual" then
        match stripped.map Char.toLower with
        | [] => []
        | c :: cs => c.toUpper :: cs
      else
        pyCapitalizeL stripped
    "🤖 AI Corrected (".data ++ style.data ++ "):\n".data ++ corrected

/-- autocorrect_text from src/main.py. -/
def autocorrect_text (text : String) (style : String) : String :=
  ⟨autocorrectL text.data style⟩

/-- Body of summarize_text from src/main.py. In the long branch the inner
length test of the source is always true and the marker is appended
directly to the joined words. -/
def summarizeL (l : List Char) : List Char :=
  let words := pyWordsL l
  if words.length ≤ 30 then l
  else
    let summary := pyJoin [' '] (words.take 30) ++ "...".data
    "📝 Summary (".data ++ (Nat.repr words.length).data ++ " words → ".data ++
      (Nat.repr (pyWordsL summary).length).data ++ " words):\n".data ++ summary

/-- summarize_text from src/main.py. -/
def summarize_text (text : String) : String := ⟨summarizeL text.data⟩

/-- Output record of analyze_text; the three float-valued fields of the
source are omitted from the embedding, the nested key_metrics dict is
flattened. -/
structure Analysis where
  word_count : Nat
  sentence_count : Nat
  character_count : Nat
  characters_no_spaces : Nat
  complexity : String
  has_punctuation : Bool
  has_capitals : Bool
  has_numbers : Bool
deriving DecidableEq

/-- analyze_text from src/main.py. -/
def analyze_text (text : String) : Analysis :=
  let words := pyWordsL text.data
  let sentences := (splitDot text.data).filter (fun s => !(pyStripL s).isEmpty)
  let characters := (pyReplace ' ' [] [] text.data).length
  { word_count := words.length
    sentence_count := sentences.length
    character_count := text.length
    characters_no_spaces := characters
    complexity :=
      if words.length < 100 then "Easy"
      else if words.length < 300 then "Moderate"
      else "Complex"
    has_punctuation := text.data.any (fun c => c = '.' || c = '!' || c = '?')
    has_capitals := text.data.any Char.isUpper
    has_numbers := text.data.any Char.isDigit }

/-- The ProcessRequest model of src/main.py; the variables dict is a
string-to-string association list as in the spec. -/
structure ProcessRequest where
  action : String
  text : String
  template_name : Option String := none
  style : String := "formal"
  vars : List (String × String) := []
deriving DecidableEq

/-- Action-specific part of the success envelope built by process_text. -/
inductive ActionPayload where
  | autocorrectP (result : String) (style : String) (improvement : String)
  | templateP (template_name : String) (content : String) (tvars : List String) (instructions : String)
  | summarizeP (result : String) (original_words : Nat) (summary_words : Nat)
  | analyzeP (analysis : Analysis)
  | autofillP (result : String) (template_used : Option String)
deriving DecidableEq

/-- Success envelope of process_text (success flag and timestamp carry no
information for the claims: the flag is constant and the timestamp is wall
clock time). -/
structure Envelope where
  action : String
  original_text_length : Nat
  rtype : String
  payload : ActionPayload
deriving DecidableEq

/-- Outcome of one POST /process call: a success envelope, or the structured
error produced by the HTTPException handlers (status code and detail). -/
inductive ProcessOutcome where
  | ok (env : Envelope)
  | err (status : Nat) (detail : String)
deriving DecidableEq

/-- Whether an outcome is a success envelope. -/
def ProcessOutcome.isOk : ProcessOutcome → Bool
  | .ok _ => true
  | .err _ _ => false

/-- process_text from src/main.py: the if/elif dispatch. In the summarize
branch the source computes len(summary)/len(request.text) for the
reduction percentage; that float division raises ZeroDivisionError exactly
when the input text is empty, and the generic except-branch turns it into
a 500 with detail "Internal server error: division by zero". The float
value itself is omitted from the envelope. -/
def process_text (req : ProcessRequest) : ProcessOutcome :=
  if req.action = "autocorrect" then
    .ok { action := req.action, original_text_length := req.text.length, rtype := "text",
          payload := .autocorrectP (autocorrect_text req.text req.style) req.style
            ("Fixed grammar and " ++ req.style ++ " style applied") }
  else if req.action = "template" then
    match lookupTemplate (resolveName req.template_name) with
    | none => .err 404 "Template not found"
    | some t =>
      .ok { action := req.action, original_text_length := req.text.length, rtype := "template",
            payload := .templateP t.name t.content t.vars "Fill the {variables} with your content" }
  else if req.action = "summarize" then
    if req.text.length = 0 then
      .err 500 "Internal server error: division by zero"
    else
      .ok { action := req.action, original_text_length := req.text.length, rtype := "text",
            payload := .summarizeP (summarize_text req.text) (pyWordsL req.text.data).length
              (pyWordsL (summarize_text req.text).data).length }
  else if req.action = "analyze" then
    .ok { action := req.action, original_text_length := req.text.length, rtype := "analysis",
          payload := .analyzeP (analyze_text req.text) }
  else if req.action = "autofill" then
    .ok { action := req.action, original_text_length := req.text.length, rtype := "filled_template",
          payload := .autofillP (autofill_template req.template_name req.vars) req.template_name }
  else
    .err 400 ("Unknown action: " ++ req.action)

/-- Scanner for brace-delimited placeholder names in a template body; the
second argument holds the reversed name being read when inside braces. -/
def extractAux : List Char → Option (List Char) → List (List Char)
  | [], _ => []
  | c :: cs, none =>
    if c = lbrace then extractAux cs (some []) else extractAux cs none
  | c :: cs, some acc =>
    if c = rbrace then acc.reverse :: extractAux cs none
    else extractAux cs (some (c :: acc))

/-- Placeholder names occurring in a template body, in order. -/
def extractPH (l : List Char) : List (List Char) := extractAux l none

/-- Alternation of literal segments (inl) and placeholder names (inr)
rendered into a template body. -/
def renderTS : List (List Char ⊕ List Char) → List Char
  | [] => []
  | .inl l :: rest => l ++ renderTS rest
  | .inr w :: rest => lbrace :: (w ++ rbrace :: renderTS rest)

/-- Substitute one placeholder name by a literal value inside a template
alternation. -/
def substVar (a val : List Char) : (List Char ⊕ List Char) → (List Char ⊕ List Char)
  | .inl l => .inl l
  | .inr w => if w = a then .inl val else .inr w

/-- Literal segments of a template alternation. -/
def lefts (ps : List (List Char ⊕ List Char)) : List (List Char) :=
  ps.filterMap Sum.getLeft?

/-- Placeholder names of a template alternation. -/
def rights (ps : List (List Char ⊕ List Char)) : List (List Char) :=
  ps.filterMap Sum.getRight?

/-- Decomposition of the business_report body into literals and
placeholders. -/
def brParts : List (List Char ⊕ List Char) :=
  [.inl "# ".data, .inr "title".data,
   .inl "\n\n## Executive Summary\n".data, .inr "summary".data,
   .inl "\n\n## Key Findings\n".data, .inr "findings".data,
   .inl "\n\n## Recommendations\n".data, .inr "recommendations".data,
   .inl "\n\n## Next Steps\n".data, .inr "next_steps".data,
   .inl "\n\n**Date:** ".data, .inr "date".data,
   .inl "\n**Prepared by:** ".data, .inr "author".data]

/-- Decomposition of the email_template body into literals and
placeholders. -/
def emParts : List (List Char ⊕ List Char) :=
  [.inl "Subject: ".data, .inr "subject".data,
   .inl "\n\nDear ".data, .inr "recipient_name".data,
   .inl ",\n\n".data, .inr "email_body".data,
   .inl "\n\nBest regards,\n".data, .inr "sender_name".data,
   .inl "\n".data, .inr "position".data,
   .inl "\n".data, .inr "company".data]

/-- Decomposition of the meeting_minutes body into literals and
placeholders. -/
def mmParts : List (List Char ⊕ List Char) :=
  [.inl "# Meeting Minutes: ".data, .inr "meeting_title".data,
   .inl "\n\n**Date:** ".data, .inr "date".data,
   .inl "\n**Time:** ".data, .inr "time".data,
   .inl "\n**Location:** ".data, .inr "location".data,
   .inl "\n**Attendees:** ".data, .inr "attendees".data,
   .inl "\n\n## Agenda\n".data, .inr "agenda".data,
   .inl "\n\n## Discussion Points\n".data, .inr "discussion".data,
   .inl "\n\n## Action Items\n".data, .inr "action_items".data,
   .inl "\n\n## Next Meeting\n".data, .inr "next_meeting".data]

/-- Append a tail to the last piece of a nonempty list of pieces. -/
def appLast : List (List Char) → List Char → List (List Char)
  | [], _ => []
  | [w], t => [w ++ t]
  | w :: x :: ws, t => w :: appLast (x :: ws) t

/-- The endpoints advertised by the body of the GET / route of
src/main.py (lines 169 to 175). -/
def rootEndpointListing : List (String × String) :=
  [("health", "/health"), ("config", "/config"), ("templates", "/templates"),
   ("process", "/process (POST)"), ("logs", "/logs")]

/-- The routes actually registered on the app in src/main.py (the decorator
lines), as method and path pairs. -/
def registeredRoutes : List (String × String) :=
  [("GET", "/"), ("GET", "/health"), ("GET", "/config"), ("GET", "/templates"),
   ("OPTIONS", "/\x7bpath:path\x7d"), ("POST", "/process")]

/-- First character uppercased, all other characters untouched: the
sentence transformation as worded by claim C4. -/
def capFirst : List Char → List Char
  | [] => []
  | c :: cs => c.toUpper :: cs

/-- The formal-style corrector exactly as claim C4 words it: trim the text,
split on periods, discard empty segments, capitalize only the first letter
of each segment leaving the rest unchanged, rejoin with a period and a
space, ensure a trailing period (label prefix as in the source). -/
def c4ClaimTransform (text : String) : String :=
  ⟨"🤖 AI Corrected (formal):\n".data ++
    (let segs := (splitDot (pyStripL text.data)).filter (fun s => !s.isEmpty)
     let j := pyJoin ('.' :: ' ' :: []) (segs.map capFirst)
     if endsDot j then j else j ++ ['.'])⟩

/-- The formal-style corrector as amended: trim the text, split on periods,
trim each segment and discard the blank ones, apply Python capitalize
(first character uppercased, the rest lowercased) to each segment, rejoin
with a period and a space, ensure a trailing period, prefix the label. -/
def c4AmendedSpec (text : String) : String :=
  ⟨"🤖 AI Corrected (formal):\n".data ++
    (let segs := ((splitDot (pyStripL text.data)).map pyStripL).filter (fun s => !s.isEmpty)
     let j := pyJoin ('.' :: ' ' :: []) (segs.map pyCapitalizeL)
     if endsDot j then j else j ++ ['.'])⟩

/-- The template filler as the spec words it: resolve every declared
variable to its mapped value or the bracketed default first, then perform
the literal replacements in declared order. -/
def fillSpecC5 (t : Template) (m : List (String × String)) : String :=
  ⟨((t.vars.map (fun v => (v, pyGetD m v ("[" ++ v.toUpper ++ "_HERE]")))).foldl
      (fun acc pr => pyReplace lbrace (pr.1.data ++ [rbrace]) pr.2.data acc)
      t.content.data)⟩

/-- A concrete input of exactly 45 whitespace-delimited words. -/
def t45 : String :=
  "w w w w w w w w w w w w w w w w w w w w w w w w w w w w w w w w w w w w w w w w w w w w w"

/-- Concrete variable mapping with one declared and one undeclared key. -/
def c5m : List (String × String) := [("subject", "Hi"), ("not_declared", "ignored")]

/-- Concrete variable mapping with the declared key only. -/
def c5mPruned : List (String × String) := [("subject", "Hi")]

/-- Concrete mapping supplying every variable of email_template. -/
def c10map : List (String × String) :=
  [("subject", "Hello"), ("recipient_name", "Team"), ("email_body", "Status update"),
   ("sender_name", "Ana"), ("position", "Manager"), ("company", "Acme")]

/-- A token produced by whitespace splitting: nonempty and free of
whitespace characters. -/
def goodWord (w : List Char) : Prop := w ≠ [] ∧ ∀ c ∈ w, pyIsSpace c = false

theorem wordsAux_wf : ∀ (l acc : List Char), (∀ c ∈ acc, pyIsSpace c = false) →
    ∀ w ∈ wordsAux l acc, goodWord w := by
  intro l
  induction l with
  | nil =>
    intro acc hacc w hw
    by_cases h : acc = []
    · simp [wordsAux, h] at hw
    · simp only [wordsAux, if_neg h, List.mem_singleton] at hw
      subst hw
      refine ⟨by simpa using h, fun c hc => hacc c (by simpa using hc)⟩
  | cons c cs ih =>
    intro acc hacc w hw
    by_cases hs : pyIsSpace c = true
    · by_cases h : acc = []
      · simp only [wordsAux, if_pos hs, if_pos h] at hw
        exact ih [] (by simp) w hw
      · simp only [wordsAux, if_pos hs, if_neg h, List.mem_cons] at hw
        rcases hw with hw | hw
        · subst hw
          refine ⟨by simpa using h, fun d hd => hacc d (by simpa using hd)⟩
        · exact ih [] (by simp) w hw
    · simp only [wordsAux, if_neg hs] at hw
      refine ih (c :: acc) ?_ w hw
      intro d hd
      rcases List.mem_cons.mp hd with hd | hd
      · subst hd; simpa using hs
      · exact hacc d hd

theorem words_wf (l : List Char) : ∀ w ∈ pyWordsL l, goodWord w :=
  wordsAux_wf l [] (by simp)

theorem wordsAux_push : ∀ (w l acc : List Char), (∀ c ∈ w, pyIsSpace c = false) →
    wordsAux (w ++ l) acc = wordsAux l (w.reverse ++ acc) := by
  intro w
  induction w with
  | nil => intro l acc _; simp
  | cons c cw ih =>
    intro l acc hw
    have hc : pyIsSpace c = false := hw c (by simp)
    simp only [List.cons_append, wordsAux, hc, Bool.false_eq_true, if_false]
    simpa [List.append_eq, List.reverse_cons, List.append_assoc] using
      ih l (c :: acc) (fun d hd => hw d (by simp [hd]))

theorem join_words : ∀ (ws : List (List Char)), (∀ w ∈ ws, goodWord w) →
    pyWordsL (pyJoin [' '] ws) = ws := by
  intro ws
  induction ws with
  | nil => intro _; rfl
  | cons w rest ih =>
    intro hwf
    have hw := hwf w (by simp)
    cases rest with
    | nil =>
      show wordsAux (pyJoin [' '] [w]) [] = [w]
      have : pyJoin [' '] [w] = w ++ [] := by simp [pyJoin]
      rw [this, wordsAux_push w [] [] hw.2]
      simp only [wordsAux]
      rw [if_neg (by simpa using hw.1)]
      simp
    | cons x xs =>
      show wordsAux (pyJoin [' '] (w :: x :: xs)) [] = w :: x :: xs
      have hjoin : pyJoin [' '] (w :: x :: xs) = w ++ (' ' :: pyJoin [' '] (x :: xs)) := by
        simp [pyJoin]
      rw [hjoin, wordsAux_push w _ [] hw.2]
      simp only [wordsAux, List.append_nil]
      rw [if_pos (by decide), if_neg (by simpa using hw.1)]
      rw [List.reverse_reverse]
      have := ih (fun u hu => hwf u (by simp [hu]))
      exact congrArg (w :: ·) this

theorem appLast_join : ∀ (ws : List (List Char)) (t : List Char), ws ≠ [] →
    pyJoin [' '] ws ++ t = pyJoin [' '] (appLast ws t) := by
  intro ws
  induction ws with
  | nil => intro t h; exact absurd rfl h
  | cons w rest ih =>
    intro t _
    cases rest with
    | nil => simp [pyJoin, appLast]
    | cons x xs =>
      have hne : appLast (x :: xs) t ≠ [] := by
        cases xs with
        | nil => simp [appLast]
        | cons y ys => simp [appLast]
      have hshape : ∀ (L : List (List Char)), L ≠ [] →
          pyJoin [' '] (w :: L) = w ++ [' '] ++ pyJoin [' '] L := by
        intro L hL
        cases L with
        | nil => exact absurd rfl hL
        | cons a as => rfl
      rw [hshape (x :: xs) (by simp),
        show appLast (w :: x :: xs) t = w :: appLast (x :: xs) t from rfl,
        hshape (appLast (x :: xs) t) hne, ← ih t (by simp)]
      simp

theorem appLast_length : ∀ (ws : List (List Char)) (t : List Char), ws ≠ [] →
    (appLast ws t).length = ws.length := by
  intro ws
  induction ws with
  | nil => intro t h; exact absurd rfl h
  | cons w rest ih =>
    intro t _
    cases rest with
    | nil => simp [appLast]
    | cons x xs =>
      simp only [appLast, List.length_cons]
      rw [ih t (by simp)]
      simp

theorem appLast_wf : ∀ (ws : List (List Char)) (t : List Char),
    (∀ w ∈ ws, goodWord w) → (∀ c ∈ t, pyIsSpace c = false) →
    ∀ w ∈ appLast ws t, goodWord w := by
  intro ws
  induction ws with
  | nil => intro t _ _ w hw; simp [appLast] at hw
  | cons w rest ih =>
    intro t hwf ht u hu
    cases rest with
    | nil =>
      simp only [appLast, List.mem_singleton] at hu
      subst hu
      have hw := hwf w (by simp)
      refine ⟨by simp [hw.1], fun c hc => ?_⟩
      rcases List.mem_append.mp hc with hc | hc
      · exact hw.2 c hc
      · exact ht c hc
    | cons x xs =>
      simp only [appLast, List.mem_cons] at hu
      rcases hu with hu | hu
      · subst hu; exact hwf u (by simp)
      · exact ih t (fun v hv => hwf v (by simp [hv])) ht u hu

theorem pyReplace_nil (p0 : Char) (pr new : List Char) : pyReplace p0 pr new [] = [] := by
  rw [pyReplace]

theorem pyReplace_hit {p0 : Char} {pr : List Char} (new : List Char) {c : Char} {cs : List Char}
    (h : leads (p0 :: pr) (c :: cs) = true) :
    pyReplace p0 pr new (c :: cs) = new ++ pyReplace p0 pr new ((c :: cs).drop (pr.length + 1)) := by
  rw [pyReplace, if_pos h]

theorem pyReplace_miss {p0 : Char} {pr : List Char} (new : List Char) {c : Char} {cs : List Char}
    (h : leads (p0 :: pr) (c :: cs) = false) :
    pyReplace p0 pr new (c :: cs) = c :: pyReplace p0 pr new cs := by
  rw [pyReplace, if_neg (by simp [h])]

theorem leads_refl_append : ∀ (a s : List Char), leads a (a ++ s) = true := by
  intro a
  induction a with
  | nil => intro s; rfl
  | cons c cw ih => intro s; simp [leads, ih]

theorem lefts_inl (l : List Char) (ps : List (List Char ⊕ List Char)) :
    lefts (.inl l :: ps) = l :: lefts ps := rfl

theorem lefts_inr (w : List Char) (ps : List (List Char ⊕ List Char)) :
    lefts (.inr w :: ps) = lefts ps := rfl

theorem rights_inl (l : List Char) (ps : List (List Char ⊕ List Char)) :
    rights (.inl l :: ps) = rights ps := rfl

theorem rights_inr (w : List Char) (ps : List (List Char ⊕ List Char)) :
    rights (.inr w :: ps) = w :: rights ps := rfl

theorem replace_skip (pr new : List Char) : ∀ (s t : List Char), (∀ c ∈ s, c ≠ lbrace) →
    pyReplace lbrace pr new (s ++ t) = s ++ pyReplace lbrace pr new t := by
  intro s
  induction s with
  | nil => intro t _; simp
  | cons c s ih =>
    intro t hs
    have hc : c ≠ lbrace := hs c (by simp)
    have hl : leads (lbrace :: pr) (c :: (s ++ t)) = false := by
      show (if lbrace = c then leads pr (s ++ t) else false) = false
      rw [if_neg (fun h => hc h.symm)]
    rw [List.cons_append, pyReplace_miss new hl, ih t (fun d hd => hs d (by simp [hd]))]
    rfl

theorem not_leads : ∀ (a b s : List Char), rbrace ∉ a → rbrace ∉ b → a ≠ b →
    leads (a ++ [rbrace]) (b ++ rbrace :: s) = false := by
  intro a
  induction a with
  | nil =>
    intro b s _ hb hne
    cases b with
    | nil => exact absurd rfl hne
    | cons d b' =>
      have hd : rbrace ≠ d := fun h => hb (by simp [← h])
      show (if rbrace = d then leads [] (b' ++ rbrace :: s) else false) = false
      rw [if_neg hd]
  | cons c a' ih =>
    intro b s ha hb hne
    have hc : c ≠ rbrace := fun h => ha (by simp [← h])
    cases b with
    | nil =>
      show (if c = rbrace then leads (a' ++ [rbrace]) s else false) = false
      rw [if_neg hc]
    | cons d b' =>
      show (if c = d then leads (a' ++ [rbrace]) (b' ++ rbrace :: s) else false) = false
      by_cases hcd : c = d
      · subst hcd
        rw [if_pos rfl]
        refine ih b' s (fun h => ha (by simp [h])) (fun h => hb (by simp [h])) ?_
        intro h
        exact hne (by rw [h])
      · rw [if_neg hcd]

theorem leads_hit (v R : List Char) :
    leads (lbrace :: (v ++ [rbrace])) (lbrace :: (v ++ rbrace :: R)) = true := by
  show (if lbrace = lbrace then leads (v ++ [rbrace]) (v ++ rbrace :: R) else false) = true
  rw [if_pos rfl, show v ++ rbrace :: R = (v ++ [rbrace]) ++ R by simp]
  exact leads_refl_append _ _

theorem drop_pat (v R : List Char) :
    (lbrace :: (v ++ rbrace :: R)).drop ((v ++ [rbrace]).length + 1) = R := by
  have h1 : lbrace :: (v ++ rbrace :: R) = (lbrace :: (v ++ [rbrace])) ++ R := by simp
  have h2 : (v ++ [rbrace]).length + 1 = (lbrace :: (v ++ [rbrace])).length := by simp
  rw [h1, h2, List.drop_left]

theorem replace_render (v val : List Char) (hv : rbrace ∉ v) :
    ∀ (parts : List (List Char ⊕ List Char)),
    (∀ lit ∈ lefts parts, lbrace ∉ lit) →
    (∀ w ∈ rights parts, lbrace ∉ w ∧ rbrace ∉ w) →
    pyReplace lbrace (v ++ [rbrace]) val (renderTS parts) =
      renderTS (parts.map (substVar v val)) := by
  intro parts
  induction parts with
  | nil => intro _ _; simp [renderTS, pyReplace_nil]
  | cons p rest ih =>
    intro hlit hvar
    cases p with
    | inl lit =>
      have hl : lbrace ∉ lit := hlit lit (by rw [lefts_inl]; simp)
      have htail := ih (fun u hu => hlit u (by rw [lefts_inl]; simp [hu]))
        (fun u hu => hvar u (by rw [rights_inl]; exact hu))
      show pyReplace lbrace (v ++ [rbrace]) val (lit ++ renderTS rest) = _
      rw [replace_skip _ _ lit _ (fun c hc he => hl (he ▸ hc)), htail]
      rfl
    | inr w =>
      have hw := hvar w (by rw [rights_inr]; simp)
      have htail := ih (fun u hu => hlit u (by rw [lefts_inr]; exact hu))
        (fun u hu => hvar u (by rw [rights_inr]; simp [hu]))
      by_cases hwv : w = v
      · subst hwv
        show pyReplace lbrace (w ++ [rbrace]) val (lbrace :: (w ++ rbrace :: renderTS rest)) = _
        rw [pyReplace_hit val (leads_hit w _), drop_pat w _, htail]
        simp [substVar, renderTS]
      · have hmiss1 : leads (lbrace :: (v ++ [rbrace]))
            (lbrace :: (w ++ rbrace :: renderTS rest)) = false := by
          show (if lbrace = lbrace then
            leads (v ++ [rbrace]) (w ++ rbrace :: renderTS rest) else false) = false
          rw [if_pos rfl]
          exact not_leads v w _ hv hw.2 (fun h => hwv h.symm)
        have hmiss2 : leads (lbrace :: (v ++ [rbrace])) (rbrace :: renderTS rest) = false := by
          show (if lbrace = rbrace then leads (v ++ [rbrace]) (renderTS rest) else false) = false
          rw [if_neg (by decide : ¬ lbrace = rbrace)]
        show pyReplace lbrace (v ++ [rbrace]) val (lbrace :: (w ++ rbrace :: renderTS rest)) = _
        rw [pyReplace_miss val hmiss1,
          replace_skip _ _ w _ (fun c hc he => hw.1 (he ▸ hc)),
          pyReplace_miss val hmiss2, htail]
        simp [substVar, renderTS, hwv]

theorem substVar_parts_rights : ∀ (ps : List (List Char ⊕ List Char)) (a val w : List Char),
    w ∈ rights (ps.map (substVar a val)) → w ∈ rights ps ∧ w ≠ a := by
  intro ps
  induction ps with
  | nil => intro a val w hw; simp [rights] at hw
  | cons p rest ih =>
    intro a val w hw
    cases p with
    | inl l =>
      rw [List.map_cons, show substVar a val (.inl l) = .inl l from rfl, rights_inl] at hw
      have := ih a val w hw
      exact ⟨by rw [rights_inl]; exact this.1, this.2⟩
    | inr x =>
      by_cases hx : x = a
      · rw [List.map_cons, show substVar a val (.inr x) = .inl val from by simp [substVar, hx],
          rights_inl] at hw
        have := ih a val w hw
        exact ⟨by rw [rights_inr]; simp [this.1], this.2⟩
      · rw [List.map_cons, show substVar a val (.inr x) = .inr x from by simp [substVar, hx],
          rights_inr] at hw
        rcases List.mem_cons.mp hw with h | h
        · subst h; exact ⟨by rw [rights_inr]; simp, hx⟩
        · have := ih a val w h
          exact ⟨by rw [rights_inr]; simp [this.1], this.2⟩

theorem substVar_parts_lefts : ∀ (ps : List (List Char ⊕ List Char)) (a val lit : List Char),
    lit ∈ lefts (ps.map (substVar a val)) → lit ∈ lefts ps ∨ lit = val := by
  intro ps
  induction ps with
  | nil => intro a val lit hl; simp [lefts] at hl
  | cons p rest ih =>
    intro a val lit hl
    cases p with
    | inl l =>
      rw [List.map_cons, show substVar a val (.inl l) = .inl l from rfl, lefts_inl] at hl
      rcases List.mem_cons.mp hl with h | h
      · subst h; exact Or.inl (by rw [lefts_inl]; simp)
      · rcases ih a val lit h with h2 | h2
        · exact Or.inl (by rw [lefts_inl]; simp [h2])
        · exact Or.inr h2
    | inr x =>
      by_cases hx : x = a
      · rw [List.map_cons, show substVar a val (.inr x) = .inl val from by simp [substVar, hx],
          lefts_inl] at hl
        rcases List.mem_cons.mp hl with h | h
        · exact Or.inr h
        · rcases ih a val lit h with h2 | h2
          · exact Or.inl (by rw [lefts_inr]; exact h2)
          · exact Or.inr h2
      · rw [List.map_cons, show substVar a val (.inr x) = .inr x from by simp [substVar, hx],
          lefts_inr] at hl
        rcases ih a val lit hl with h2 | h2
        · exact Or.inl (by rw [lefts_inr]; exact h2)
        · exact Or.inr h2

theorem no_brace_render : ∀ (ps : List (List Char ⊕ List Char)),
    (∀ w ∈ rights ps, False) → (∀ lit ∈ lefts ps, lbrace ∉ lit) →
    lbrace ∉ renderTS ps := by
  intro ps
  induction ps with
  | nil => intro _ _; simp [renderTS]
  | cons p rest ih =>
    intro hr hlit
    cases p with
    | inl l =>
      show lbrace ∉ l ++ renderTS rest
      intro hmem
      rcases List.mem_append.mp hmem with h | h
      · exact hlit l (by rw [lefts_inl]; simp) h
      · exact ih (fun w hw => hr w (by rw [rights_inl]; exact hw))
          (fun u hu => hlit u (by rw [lefts_inl]; simp [hu])) h
    | inr w => exact absurd (hr w (by rw [rights_inr]; simp)) (by simp)

theorem fold_no_brace : ∀ (vs : List String) (resolve : String → String)
    (ps : List (List Char ⊕ List Char)),
    (∀ lit ∈ lefts ps, lbrace ∉ lit) →
    (∀ w ∈ rights ps, ∃ u ∈ vs, u.data = w) →
    (∀ u ∈ vs, lbrace ∉ u.data ∧ rbrace ∉ u.data) →
    (∀ u ∈ vs, lbrace ∉ (resolve u).data ∧ rbrace ∉ (resolve u).data) →
    lbrace ∉ vs.foldl
      (fun acc u => pyReplace lbrace (u.data ++ [rbrace]) (resolve u).data acc)
      (renderTS ps) := by
  intro vs resolve
  induction vs with
  | nil =>
    intro ps hlit hr _ _
    simp only [List.foldl_nil]
    refine no_brace_render ps (fun w hw => ?_) hlit
    rcases hr w hw with ⟨u, hu, _⟩
    simp at hu
  | cons v vt ih =>
    intro ps hlit hr hvars hres
    simp only [List.foldl_cons]
    have hrr := replace_render v.data (resolve v).data ((hvars v (by simp)).2) ps hlit
      (fun w hw => by
        rcases hr w hw with ⟨u, hu, he⟩
        exact he ▸ ⟨(hvars u hu).1, (hvars u hu).2⟩)
    rw [hrr]
    refine ih (ps.map (substVar v.data (resolve v).data)) ?_ ?_
      (fun u hu => hvars u (by simp [hu])) (fun u hu => hres u (by simp [hu]))
    · intro lit hl
      rcases substVar_parts_lefts _ _ _ _ hl with h | h
      · exact hlit lit h
      · subst h; exact (hres v (by simp)).1
    · intro w hw
      rcases substVar_parts_rights _ _ _ _ hw with ⟨hmem, hne⟩
      rcases hr w hmem with ⟨u, hu, he⟩
      rcases List.mem_cons.mp hu with h | h
      · exact absurd (h ▸ he) (fun hh => hne hh.symm)
      · exact ⟨u, h, he⟩

theorem string_mk_data (s : String) : String.mk s.data = s := rfl

theorem data_nil_eq_empty {text : String} (h : text.data = []) : text = "" := by
  cases text with
  | mk d =>
    have hd : d = [] := h
    subst hd
    rfl

theorem filter_strip_swap : ∀ (L : List (List Char)),
    (L.filter (fun s => !(pyStripL s).isEmpty)).map pyStripL =
      (L.map pyStripL).filter (fun s => !s.isEmpty) := by
  intro L
  induction L with
  | nil => rfl
  | cons a L ih =>
    by_cases h : (pyStripL a).isEmpty
    · simp [h, ih]
    · simp [h, ih]

theorem fill_agree (m m2 : List (String × String)) : ∀ (vs : List String) (acc : List Char),
    (∀ v ∈ vs, pyGet m v = pyGet m2 v) →
    vs.foldl (fillStep m) acc = vs.foldl (fillStep m2) acc := by
  intro vs
  induction vs with
  | nil => intro acc _; rfl
  | cons v vt ih =>
    intro acc hag
    simp only [List.foldl_cons]
    have hstep : fillStep m acc v = fillStep m2 acc v := by
      simp only [fillStep, pyGetD, hag v (by simp)]
    rw [hstep]
    exact ih _ (fun u hu => hag u (by simp [hu]))

/-- Claim C1: for every input, the analyzer word count is the number of
whitespace-delimited tokens and the character count is the exact string
length; on the scenario input the counts are 5 words, 1 sentence and 26
characters. -/
theorem claim_c1_analyze_counts :
    (∀ text : String, (analyze_text text).word_count = (pyWordsL text.data).length ∧
      (analyze_text text).character_count = text.length) ∧
    (analyze_text "The quick brown fox jumps.").word_count = 5 ∧
    (analyze_text "The quick brown fox jumps.").sentence_count = 1 ∧
    (analyze_text "The quick brown fox jumps.").character_count = 26 :=
  ⟨fun _ => ⟨rfl, rfl⟩, by decide, by decide, by decide⟩

/-- Claim C2: a text of at most 30 whitespace-delimited words is returned
unchanged by the summarizer, hence the summarizer is idempotent on such
inputs. -/
theorem claim_c2_summarize_identity (x : String)
    (h : (pyWordsL x.data).length ≤ 30) :
    summarize_text x = x ∧ summarize_text (summarize_text x) = summarize_text x := by
  have h1 : summarize_text x = x := by
    show String.mk (summarizeL x.data) = x
    simp only [summarizeL]
    rw [if_pos h]
  refine ⟨h1, ?_⟩
  rw [h1]
  exact h1

/-- Witness for claim C2 at the scenario input. -/
theorem claim_c2_witness :
    (pyWordsL ("The quick brown fox jumps." : String).data).length ≤ 30 ∧
      summarize_text "The quick brown fox jumps." = "The quick brown fox jumps." :=
  ⟨by decide, (claim_c2_summarize_identity "The quick brown fox jumps." (by decide)).1⟩

/-- Claim C7: any request whose action is outside the known set is answered
with the BadRequest error (status 400) carrying the unknown-action detail;
the dispatcher is a total function, so no exception escapes. -/
theorem claim_c7_unknown_action (req : ProcessRequest)
    (h : req.action ∉ (["autocorrect", "template", "summarize", "analyze", "autofill"] : List String)) :
    process_text req = .err 400 ("Unknown action: " ++ req.action) := by
  have h1 : ¬ req.action = "autocorrect" := fun he => h (by simp [he])
  have h2 : ¬ req.action = "template" := fun he => h (by simp [he])
  have h3 : ¬ req.action = "summarize" := fun he => h (by simp [he])
  have h4 : ¬ req.action = "analyze" := fun he => h (by simp [he])
  have h5 : ¬ req.action = "autofill" := fun he => h (by simp [he])
  simp only [process_text, if_neg h1, if_neg h2, if_neg h3, if_neg h4, if_neg h5]

/-- Witness for claim C7 at a concrete unknown action. -/
theorem claim_c7_witness :
    process_text ⟨"translate", "hi", none, "formal", []⟩ =
      .err 400 ("Unknown action: " ++ "translate") :=
  claim_c7_unknown_action _ (by decide)

/-- Claim C9: a summarize request with empty text hits the unguarded
division len(summary)/len(text) and is answered with the 500 internal
error instead of a success envelope. -/
theorem claim_c9_empty_summarize (req : ProcessRequest)
    (ha : req.action = "summarize") (ht : req.text = "") :
    process_text req = .err 500 "Internal server error: division by zero" := by
  simp only [process_text, ha, ht]
  rw [if_neg (by decide : ¬("summarize" : String) = "autocorrect"),
    if_neg (by decide : ¬("summarize" : String) = "template")]
  simp

/-- Witness for claim C9 at the concrete empty-text request. -/
theorem claim_c9_witness :
    process_text ⟨"summarize", "", none, "formal", []⟩ =
      .err 500 "Internal server error: division by zero" :=
  claim_c9_empty_summarize _ rfl rfl

/-- Counterexample to claim C4 as stated: on an input whose sentences carry
inner uppercase letters, the source lowercases the remaining characters of
each sentence (Python str.capitalize) and strips each segment, while the
claim demands that all characters after the first stay unchanged. -/
theorem claim_c4_counter :
    autocorrect_text "hello WORLD. foo BAR" "formal" ≠
      c4ClaimTransform "hello WORLD. foo BAR" := by decide

/-- Claim C4 as amended: for nonempty input the formal corrector trims the
text, splits on periods, trims each segment and discards blank ones,
applies Python capitalize to each segment (first character uppercased, the
rest lowercased), rejoins with a period and a space, ensures a trailing
period, and prefixes the label. -/
theorem claim_c4_amended (text : String) (h : text ≠ "") :
    autocorrect_text text "formal" = c4AmendedSpec text := by
  have hd : text.data ≠ [] := fun hnil => h (data_nil_eq_empty hnil)
  show String.mk (autocorrectL text.data "formal") = c4AmendedSpec text
  simp only [autocorrectL, c4AmendedSpec, if_neg hd, if_true, if_pos rfl]
  rw [filter_strip_swap]
  congr 1

/-- Witness for the amended claim C4 at the scenario input. -/
theorem claim_c4_witness :
    ("hello world" : String) ≠ "" ∧
      autocorrect_text "hello world" "formal" = c4AmendedSpec "hello world" :=
  ⟨by decide, claim_c4_amended "hello world" (by decide)⟩

/-- Claim C5: the filler output depends only on the values of the declared
variables (undeclared keys of the mapping are ignored), and it equals the
spec-worded substitution that resolves every declared variable to its
mapped value or the bracketed default and then replaces the brace-wrapped
placeholders in declared order. -/
theorem claim_c5_autofill (key : String) (t : Template) (hk : lookupTemplate key = some t)
    (m m2 : List (String × String))
    (hagree : ∀ v ∈ t.vars, pyGet m v = pyGet m2 v) :
    autofill_template (some key) m = autofill_template (some key) m2 ∧
    autofill_template (some key) m = fillSpecC5 t m := by
  have hne : key ≠ "" := by
    intro he
    subst he
    rw [show lookupTemplate "" = none from by decide] at hk
    exact Option.noConfusion hk
  have hres : resolveName (some key) = key := by
    simp only [resolveName]
    rw [if_neg hne]
  have hunfold : autofill_template (some key) m = fillTemplate t m := by
    simp only [autofill_template, hres, hk]
  have hunfold2 : autofill_template (some key) m2 = fillTemplate t m2 := by
    simp only [autofill_template, hres, hk]
  constructor
  · rw [hunfold, hunfold2]
    exact congrArg String.mk (fill_agree m m2 t.vars t.content.data hagree)
  · rw [hunfold]
    refine congrArg String.mk ?_
    rw [List.foldl_map]
    rfl

/-- Witness for claim C5: filling email_template with subject Hi plus an
undeclared key gives the same output as with the declared key alone. -/
theorem claim_c5_witness :
    lookupTemplate "email_template" = some emailT ∧
    (∀ v ∈ emailT.vars, pyGet c5m v = pyGet c5mPruned v) ∧
    autofill_template (some "email_template") c5m =
      autofill_template (some "email_template") c5mPruned :=
  ⟨by decide, by decide,
    (claim_c5_autofill "email_template" emailT (by decide) c5m c5mPruned (by decide)).1⟩

/-- Counterexample to claim C6 as stated: an autofill request with an
unknown template id is answered with a success envelope whose result is
the sentinel string, not with a NotFound error. -/
theorem claim_c6_counter :
    process_text ⟨"autofill", "", some "missing_template", "formal", []⟩ =
      .ok ⟨"autofill", 0, "filled_template",
        .autofillP "Template not found" (some "missing_template")⟩ := by decide

/-- Claim C6 as amended: for a present nonempty template id absent from the
registry, the template action raises the 404 NotFound error, while the
autofill action returns a success envelope whose result is the string
"Template not found". -/
theorem claim_c6_amended (name text style : String) (vars : List (String × String))
    (hne : name ≠ "") (hmiss : findT TEMPLATES name = none) :
    process_text ⟨"template", text, some name, style, vars⟩ =
      .err 404 "Template not found" ∧
    process_text ⟨"autofill", text, some name, style, vars⟩ =
      .ok ⟨"autofill", text.length, "filled_template",
        .autofillP "Template not found" (some name)⟩ := by
  have hres : resolveName (some name) = name := by
    simp only [resolveName]
    rw [if_neg hne]
  have hauto : autofill_template (some name) vars = "Template not found" := by
    simp only [autofill_template, hres, lookupTemplate, hmiss]
  constructor
  · simp only [process_text]
    rw [if_neg (by decide : ¬("template" : String) = "autocorrect")]
    simp only [if_true, if_pos rfl, hres, lookupTemplate, hmiss]
  · simp only [process_text]
    rw [if_neg (by decide : ¬("autofill" : String) = "autocorrect"),
      if_neg (by decide : ¬("autofill" : String) = "template"),
      if_neg (by decide : ¬("autofill" : String) = "summarize"),
      if_neg (by decide : ¬("autofill" : String) = "analyze")]
    simp only [if_true, if_pos rfl, hauto]

/-- Witness for the amended claim C6 at a concrete unknown template id. -/
theorem claim_c6_witness :
    ("missing_template" : String) ≠ "" ∧
    findT TEMPLATES "missing_template" = none ∧
    process_text ⟨"template", "", some "missing_template", "formal", []⟩ =
      .err 404 "Template not found" :=
  ⟨by decide, by decide,
    (claim_c6_amended "missing_template" "" "formal" [] (by decide) (by decide)).1⟩

/-- Claim C8 context: the root endpoint of src/main.py advertises a /logs
endpoint, but no /logs route and no usage log exist anywhere in the
source; process_text returns its envelope without recording anything. -/
theorem claim_c8_logs_gap :
    ("logs", "/logs") ∈ rootEndpointListing ∧
      ∀ r ∈ registeredRoutes, r.2 ≠ "/logs" := by decide

/-- Counterexample to claim C3 as stated: on a concrete 45-word input the
whitespace-token count of the summarizer output is 37 (seven label tokens
plus thirty summary tokens, the ellipsis glued to the thirtieth word), not
30 plus a separate ellipsis token. -/
theorem claim_c3_counter :
    (pyWordsL t45.data).length = 45 ∧
    (pyWordsL (summarize_text t45).data).length = 37 ∧
    (37 : Nat) ≠ 31 ∧ (37 : Nat) ≠ 30 :=
  ⟨by decide, by decide, by decide, by decide⟩

/-- Claim C3 as amended: for a 45-word input the summarizer output is the
label followed by the first 30 words joined by single spaces with the
ellipsis marker appended directly to the last word; hence the output
contains the first 30 words joined by single spaces and ends with the
ellipsis, and the summary portion after the label counts 30
whitespace-delimited tokens (the ellipsis does not form an extra token,
and the label contributes its own tokens on top). -/
theorem claim_c3_amended (text : String) (h : (pyWordsL text.data).length = 45) :
    (summarize_text text).data =
      "📝 Summary (45 words → 30 words):\n".data ++
        (pyJoin [' '] ((pyWordsL text.data).take 30) ++ "...".data) ∧
    (pyWordsL (pyJoin [' '] ((pyWordsL text.data).take 30) ++ "...".data)).length = 30 := by
  have hwf : ∀ w ∈ pyWordsL text.data, goodWord w := words_wf text.data
  have htkwf : ∀ w ∈ (pyWordsL text.data).take 30, goodWord w :=
    fun w hw => hwf w (List.take_subset _ _ hw)
  have htklen : ((pyWordsL text.data).take 30).length = 30 := by
    rw [List.length_take, h]
    omega
  have htkne : (pyWordsL text.data).take 30 ≠ [] := by
    intro he
    rw [he] at htklen
    simp at htklen
  have hdots : ∀ c ∈ ("..." : String).data, pyIsSpace c = false := by decide
  have happ : pyJoin [' '] ((pyWordsL text.data).take 30) ++ "...".data =
      pyJoin [' '] (appLast ((pyWordsL text.data).take 30) "...".data) :=
    appLast_join _ _ htkne
  have hwords : pyWordsL (pyJoin [' '] (appLast ((pyWordsL text.data).take 30) "...".data)) =
      appLast ((pyWordsL text.data).take 30) "...".data :=
    join_words _ (appLast_wf _ _ htkwf hdots)
  have hcount : (pyWordsL (pyJoin [' ']
      ((pyWordsL text.data).take 30) ++ "...".data)).length = 30 := by
    rw [happ, hwords, appLast_length _ _ htkne, htklen]
  refine ⟨?_, hcount⟩
  have hdata : (summarize_text text).data = summarizeL text.data := rfl
  rw [hdata]
  simp only [summarizeL]
  rw [if_neg (show ¬ (pyWordsL text.data).length ≤ 30 by rw [h]; omega)]
  rw [h, hcount]
  simp only [← List.append_assoc]
  congr 2

/-- Witness for the amended claim C3 at the concrete 45-word input. -/
theorem claim_c3_witness :
    (pyWordsL t45.data).length = 45 ∧
      (pyWordsL (pyJoin [' '] ((pyWordsL t45.data).take 30) ++ "...".data)).length = 30 :=
  ⟨by decide, (claim_c3_amended t45 (by decide)).2⟩

/-- Claim C10: for each seed template the declared variable list is exactly
the list of placeholder names occurring in the body; and filling a seed
template with a mapping that supplies every declared variable (with values
free of brace characters, so that no new placeholder is introduced) leaves
no brace in the output, in particular no remaining placeholder. -/
theorem claim_c10_seed_templates :
    (∀ p ∈ TEMPLATES, extractPH p.2.content.data = p.2.vars.map String.data) ∧
    (∀ p ∈ TEMPLATES, ∀ m : List (String × String),
      (∀ v ∈ p.2.vars, (pyGet m v).isSome = true) →
      (∀ v ∈ p.2.vars, lbrace ∉ ((pyGet m v).getD "").data ∧
        rbrace ∉ ((pyGet m v).getD "").data) →
      lbrace ∉ (fillTemplate p.2 m).data) := by
  constructor
  · intro p hp
    simp only [TEMPLATES, List.mem_cons, List.mem_singleton, List.not_mem_nil, or_false] at hp
    rcases hp with hp | hp | hp <;> subst hp <;> decide
  · intro p hp m hsupp hbf
    have hresolve : ∀ v ∈ p.2.vars,
        lbrace ∉ (pyGetD m v ("[" ++ v.toUpper ++ "_HERE]")).data ∧
        rbrace ∉ (pyGetD m v ("[" ++ v.toUpper ++ "_HERE]")).data := by
      intro v hv
      rcases hg : pyGet m v with _ | val
      · exact absurd (hsupp v hv) (by simp [hg])
      · have hval := hbf v hv
        rw [hg] at hval
        simp only [Option.getD_some] at hval
        simp only [pyGetD, hg]
        exact hval
    simp only [TEMPLATES, List.mem_cons, List.mem_singleton, List.not_mem_nil, or_false] at hp
    rcases hp with hp | hp | hp <;> subst hp
    · show lbrace ∉ businessReportT.vars.foldl (fillStep m) businessReportT.content.data
      rw [show businessReportT.content.data = renderTS brParts from by decide]
      exact fold_no_brace businessReportT.vars
        (fun v => pyGetD m v ("[" ++ v.toUpper ++ "_HERE]")) brParts
        (by decide) (by decide) (by decide) hresolve
    · show lbrace ∉ emailT.vars.foldl (fillStep m) emailT.content.data
      rw [show emailT.content.data = renderTS emParts from by decide]
      exact fold_no_brace emailT.vars
        (fun v => pyGetD m v ("[" ++ v.toUpper ++ "_HERE]")) emParts
        (by decide) (by decide) (by decide) hresolve
    · show lbrace ∉ meetingT.vars.foldl (fillStep m) meetingT.content.data
      rw [show meetingT.content.data = renderTS mmParts from by decide]
      exact fold_no_brace meetingT.vars
        (fun v => pyGetD m v ("[" ++ v.toUpper ++ "_HERE]")) mmParts
        (by decide) (by decide) (by decide) hresolve

/-- Witness for claim C10: a concrete full mapping for email_template
satisfies the hypotheses and the filled body keeps no brace. -/
theorem claim_c10_witness :
    (∀ v ∈ emailT.vars, (pyGet c10map v).isSome = true) ∧
      lbrace ∉ (fillTemplate emailT c10map).data :=
  ⟨by decide,
    claim_c10_seed_templates.2 ("email_template", emailT) (by decide) c10map
      (by decide) (by decide)⟩
